import Mathlib

/-!
Verification of the UICompare repository's comparison core against its
natural-language specification.

The development shallowly embeds the relevant Python code:

* `src/utils/compare.py` — `IntegratedComparator.normalize_text`,
  `compare_text` (fuzzy strategy via `difflib.SequenceMatcher`),
  `compare_accessibility_structure`, `compare_form_structure`,
  `compare_pagination`, `compare_widgets`, `compare_page_architecture`
  and the module-level `compare_page_structure`.
* `src/utils/semantic_field_comparator.py` — `SemanticFieldComparator`
  with `compare_form_fields` and its helpers.

Python strings are modelled as `List Char` (wrapped in `String` at API
boundaries), Python ints as `Int`/`Nat`, Python floats arising from
`difflib` ratios as exact rationals `ℚ` (the float values are quotients
`2*M/(len a + len b)` with small numerators and denominators; rational
arithmetic agrees with IEEE semantics for every comparison made in the
theorems below, which never sit on a rounding boundary).

Recursive string procedures are defined with an explicit fuel argument
equal to the length of the string being consumed; every recursive call
strictly consumes at least one character, so the fuel never runs out.
This keeps all definitions structurally recursive and kernel-reducible.
-/

namespace UICompare

/-- The apostrophe character, written via its code point so that the
source file contains no stray quote characters. -/
def apos : Char := Char.ofNat 39

/-- Characters for which Python's `str.isspace()` holds (and which the
regex `\s` matches in unicode mode): ASCII whitespace, the C0 separator
block, NEL, NBSP and the unicode space separators. -/
def pySpaceChars : List Char :=
  [' ', Char.ofNat 9, Char.ofNat 10, Char.ofNat 11, Char.ofNat 12, Char.ofNat 13,
   Char.ofNat 28, Char.ofNat 29, Char.ofNat 30, Char.ofNat 31,
   Char.ofNat 133, Char.ofNat 160, Char.ofNat 0x1680,
   Char.ofNat 0x2000, Char.ofNat 0x2001, Char.ofNat 0x2002, Char.ofNat 0x2003,
   Char.ofNat 0x2004, Char.ofNat 0x2005, Char.ofNat 0x2006, Char.ofNat 0x2007,
   Char.ofNat 0x2008, Char.ofNat 0x2009, Char.ofNat 0x200A,
   Char.ofNat 0x2028, Char.ofNat 0x2029, Char.ofNat 0x202F,
   Char.ofNat 0x205F, Char.ofNat 0x3000]

/-- Python whitespace test (`str.isspace` on one character). -/
def isPySpace (c : Char) : Bool := pySpaceChars.contains c

/-- `str.replace(pat, rep)`: leftmost, non-overlapping, scanning left to
right.  The fuel equals the length of the string still to be scanned;
every recursive call consumes at least one character (the pattern is
nonempty in every use below, and the empty pattern falls through to the
identity branch; Python's special behaviour for an empty pattern is not
used by the embedded code). -/
def pyReplaceFuel : Nat → List Char → List Char → List Char → List Char
  | _, [], _, _ => []
  | 0, s, _, _ => s
  | fuel+1, c :: t, p, r =>
      if !p.isEmpty && p.isPrefixOf (c :: t) then
        r ++ pyReplaceFuel fuel ((c :: t).drop p.length) p r
      else c :: pyReplaceFuel fuel t p r

/-- `s.replace(p, r)` for Python strings as char lists. -/
def pyReplace (s p r : List Char) : List Char := pyReplaceFuel s.length s p r

/-- Left part of `str.strip()`. -/
def stripLeft (s : List Char) : List Char := s.dropWhile isPySpace

/-- Right part of `str.strip()`. -/
def stripRight (s : List Char) : List Char := (s.reverse.dropWhile isPySpace).reverse

/-- `str.strip()` with no arguments: remove leading and trailing
Python whitespace. -/
def pyStrip (s : List Char) : List Char := stripRight (stripLeft s)

/-- `re.sub(r"\s+", " ", s)`: every maximal run of whitespace becomes a
single ASCII space.  Fuel as in `pyReplaceFuel`. -/
def collapseFuel : Nat → List Char → List Char
  | _, [] => []
  | 0, s => s
  | fuel+1, c :: t =>
      if isPySpace c then ' ' :: collapseFuel fuel (t.dropWhile isPySpace)
      else c :: collapseFuel fuel t

/-- Whitespace-run collapsing (`self._whitespace_re.sub(" ", text)`). -/
def collapseWs (s : List Char) : List Char := collapseFuel s.length s

/-- The `_html_entities` table of `IntegratedComparator.__init__`
(`compare.py` lines 71-74), in dict insertion order. -/
def htmlEntities : List (List Char × List Char) :=
  [("&amp;".data, "&".data),
   ("&lt;".data, "<".data),
   ("&gt;".data, ">".data),
   ("&quot;".data, "\"".data),
   ("&#39;".data, [apos]),
   ("&nbsp;".data, " ".data),
   ("&copy;".data, "©".data),
   ("&reg;".data, "®".data),
   ("&trade;".data, "™".data)]

/-- Line 93 of `compare.py` reads
`text = text.replace(''', "'").replace(''', "'")`
(the file holds straight ASCII quotes where curly quotes were clearly
intended).  Python's tokenizer sees the three consecutive single quotes
as the start of a triple-quoted string that ends at the *second* run of
three single quotes, so the whole line parses as a SINGLE call
`text.replace(<pat>, <apostrophe>)` whose pattern is the 15-character
string: comma, space, double-quote, apostrophe, double-quote, closing
parenthesis, dot, r, e, p, l, a, c, e, opening parenthesis.  (Verified
against the CPython AST of that line.) -/
def line93Pat : List Char :=
  [',', ' ', '"', apos, '"', ')', '.', 'r', 'e', 'p', 'l', 'a', 'c', 'e', '(']

/-- `IntegratedComparator.normalize_text` (`compare.py` lines 76-99) on
char lists.  Line 92 replaces a straight double quote by itself twice
(a no-op in the source text as committed: the curly quotes were
flattened to ASCII); line 93 is the single odd `replace` described at
`line93Pat`; line 94 replaces en and em dashes by a hyphen-minus.
The `try/except` wrapper is not modelled: none of the string operations
can raise on a `str` argument. -/
def normalizeList (s : List Char) : List Char :=
  let t0 := pyStrip s
  let t1 := htmlEntities.foldl (fun t pr => pyReplace t pr.1 pr.2) t0
  let t2 := collapseWs t1
  let t3 := pyReplace (pyReplace t2 ['"'] ['"']) ['"'] ['"']
  let t4 := pyReplace t3 line93Pat [apos]
  let t5 := pyReplace (pyReplace t4 ['–'] ['-']) ['—'] ['-']
  t5

/-- `normalize_text` on `String`, including the falsy-input guard
(`if not value: return ""`). -/
def normalize_text (s : String) : String :=
  if s.data = [] then "" else ⟨normalizeList s.data⟩

example : normalize_text "&amp;amp;" = "&amp;" := by decide
example : normalize_text "&amp;" = "&" := by decide
example : normalize_text "  a   b  " = "a b" := by decide
example : normalize_text "&nbsp;a" = " a" := by decide
example : normalize_text "a – b — c" = "a - b - c" := by decide
example : normalize_text "&copy;&reg;&trade;" = "©®™" := by decide
example : normalize_text ⟨line93Pat⟩ = ⟨[apos]⟩ := by decide

/-! ## difflib.SequenceMatcher

`compare_text` with the `FUZZY_TEXT` strategy calls
`SequenceMatcher(None, a, b).ratio()`, and `fuzzywuzzy.fuzz.ratio`
(used by the semantic field comparator) is `int(round(100 * ratio))`
over the same matcher in its pure-Python configuration.  The matcher is
embedded below: `isjunk` is `None`, so the junk set is empty and the
junk-related extension loop of `find_longest_match` is a no-op (it is
omitted); the `autojunk` popularity filter only applies when
`len(b) >= 200` and is modelled in `b2j`. -/

/-- Ascending list of positions of `c` in `b` (the `b2j` dict entry
before the autojunk filter). -/
def charPositions (b : List Char) (c : Char) : List Nat :=
  (List.range b.length).filter (fun j => b.get? j = some c)

/-- The autojunk rule of `SequenceMatcher.__chain_b`: when
`len(b) >= 200`, elements occurring more than `len(b) // 100 + 1` times
are dropped from `b2j`. -/
def b2j (b : List Char) (c : Char) : List Nat :=
  if b.length ≥ 200 ∧ b.count c > b.length / 100 + 1 then []
  else charPositions b c

/-- One row of the `find_longest_match` dynamic program: fold over the
positions `js` of `a[i]` in `b` (already restricted to `blo ≤ j < bhi`),
threading the previous row `j2len` (an association list `j ↦ length of
the longest common run ending at `(i, j)`) and the current best
`(besti, bestj, bestsize)`. -/
def flmRow (j2len : List (Nat × Nat)) (i : Nat) (js : List Nat) :
    List (Nat × Nat) × (Nat × Nat × Nat) → List (Nat × Nat) × (Nat × Nat × Nat) :=
  fun st =>
    js.foldl
      (fun (st : List (Nat × Nat) × (Nat × Nat × Nat)) j =>
        let k := (if j = 0 then 0 else ((j2len.lookup (j-1)).getD 0)) + 1
        let newj2len := (j, k) :: st.1
        let best := st.2
        if k > best.2.2 then (newj2len, (i + 1 - k, j + 1 - k, k)) else (newj2len, best))
      st

/-- The `while` loop extending the best block to the left
(no junk: `bjunk` is empty).  Fuel: `besti` strictly decreases. -/
def flmExtendLeft (a b : List Char) (alo blo : Nat) :
    Nat → Nat × Nat × Nat → Nat × Nat × Nat
  | 0, st => st
  | fuel+1, (bi, bj, bs) =>
      if alo < bi ∧ blo < bj ∧ (a.get? (bi-1)).isSome ∧ a.get? (bi-1) = b.get? (bj-1) then
        flmExtendLeft a b alo blo fuel (bi-1, bj-1, bs+1)
      else (bi, bj, bs)

/-- The `while` loop extending the best block to the right.
Fuel: `ahi - (besti + bestsize)` strictly decreases. -/
def flmExtendRight (a b : List Char) (ahi bhi : Nat) :
    Nat → Nat × Nat × Nat → Nat × Nat × Nat
  | 0, st => st
  | fuel+1, (bi, bj, bs) =>
      if bi + bs < ahi ∧ bj + bs < bhi ∧ (a.get? (bi+bs)).isSome ∧
          a.get? (bi+bs) = b.get? (bj+bs) then
        flmExtendRight a b ahi bhi fuel (bi, bj, bs+1)
      else (bi, bj, bs)

/-- `SequenceMatcher.find_longest_match(alo, ahi, blo, bhi)` with
`isjunk = None`.  Returns `(besti, bestj, bestsize)`. -/
def findLongestMatch (a b : List Char) (alo ahi blo bhi : Nat) : Nat × Nat × Nat :=
  let init : List (Nat × Nat) × (Nat × Nat × Nat) := ([], (alo, blo, 0))
  let dp :=
    (List.range' alo (ahi - alo)).foldl
      (fun (st : List (Nat × Nat) × (Nat × Nat × Nat)) i =>
        let js :=
          match a.get? i with
          | some c => ((b2j b c).takeWhile (fun j => j < bhi)).filter (fun j => blo ≤ j)
          | none => []
        flmRow st.1 i js ([], st.2))
      init
  let best := dp.2
  let best := flmExtendLeft a b alo blo best.1 best
  flmExtendRight a b ahi bhi (ahi - (best.1 + best.2.2)) best

/-- Total size of all matching blocks (the sum over
`get_matching_blocks`), written as the same divide-and-conquer recursion
that the queue in `get_matching_blocks` performs.  The fuel bounds the
recursion depth; `la + lb + 1` always suffices because every recursive
call is on a strictly smaller pair of intervals. -/
def matchTotalFuel (a b : List Char) : Nat → Nat → Nat → Nat → Nat → Nat
  | 0, _, _, _, _ => 0
  | fuel+1, alo, ahi, blo, bhi =>
      let m := findLongestMatch a b alo ahi blo bhi
      let i := m.1
      let j := m.2.1
      let k := m.2.2
      if k = 0 then 0
      else
        k + (if alo < i ∧ blo < j then matchTotalFuel a b fuel alo i blo j else 0)
          + (if i + k < ahi ∧ j + k < bhi then matchTotalFuel a b fuel (i+k) ahi (j+k) bhi else 0)

/-- `sum(size for _, _, size in get_matching_blocks())`. -/
def matchTotal (a b : List Char) : Nat :=
  matchTotalFuel a b (a.length + b.length + 1) 0 a.length 0 b.length

/-- `SequenceMatcher.ratio()` as an exact rational:
`2*M / (len(a) + len(b))`, and `1` when both are empty
(difflib's `_calculate_ratio`). -/
def ratioScore (a b : List Char) : ℚ :=
  let length := a.length + b.length
  if length ≠ 0 then (2 * (matchTotal a b : ℚ)) / (length : ℚ) else 1

example : matchTotal "ab".data "bacb".data = 2 := by decide
example : matchTotal "bacb".data "ab".data = 1 := by decide
example : matchTotal "abcd".data "abcd".data = 4 := by decide
example : ratioScore "ab".data "bacb".data = 2/3 := by
  have h : matchTotal "ab".data "bacb".data = 2 := by decide
  rw [ratioScore, h]; norm_num
example : ratioScore "bacb".data "ab".data = 1/3 := by
  have h : matchTotal "bacb".data "ab".data = 1 := by decide
  rw [ratioScore, h]; norm_num

/-! ## ComparisonResult and compare_text -/

/-- `ComparisonResult` (compare.py lines 29-54).  The `details` dict and
the `datetime.now()` timestamp are not modelled: no embedded comparator
below stores anything in `details`, and the timestamp is wall-clock
state outside a pure embedding. -/
structure CompResult where
  success : Bool
  message : String
  similarityScore : Option ℚ := none
deriving DecidableEq

/-- Python `round()` (round half to even) on an exact rational. -/
def pyRound (q : ℚ) : ℤ :=
  let fl := ⌊q⌋
  let frac := q - fl
  if frac < 1/2 then fl
  else if 1/2 < frac then fl + 1
  else if fl % 2 = 0 then fl else fl + 1

/-- Rendering of `f"{q:.2%}"` using exact rational arithmetic and
round-half-even.  (CPython formats the nearest double; the two agree on
every value actually formatted in the theorems below, and no theorem
depends on this rendering.) -/
def pctFmt (q : ℚ) : String :=
  let cents := pyRound (q * 10000)
  toString (cents / 100) ++ "." ++
    (if cents % 100 < 10 then "0" else "") ++ toString (cents % 100) ++ "%"

/-- Wrap a string in single quotes (`f"'{s}'"`). -/
def squote (s : String) : String := ⟨apos :: (s.data ++ [apos])⟩

/-- The comparison strategies of `ComparisonType` that the embedded
`compare_text` handles.  `SEMANTIC_TEXT` and `PATTERN_MATCH` (a regex
match) are not referenced by any claim and are omitted. -/
inductive CType where
  | exactText
  | fuzzyText
deriving DecidableEq

/-- Constructor state of `IntegratedComparator` (thresholds;
`numeric_tolerance` and `date_tolerance_seconds` are unused by the
embedded methods). -/
structure Comparator where
  fuzzyThreshold : ℚ := 9/10
  semanticThreshold : ℚ := 8/10
deriving DecidableEq

/-- `IntegratedComparator.compare_text` (compare.py lines 116-165) for
the exact and fuzzy strategies.  `case_sensitive` defaults to `True`;
the lowercasing branch uses `String.toLower` (Python `str.lower`; the
two agree on ASCII, and every claim site passes the default `True`). -/
def compare_text (cc : Comparator) (a b : String) (ct : CType)
    (caseSensitive : Bool := true) : CompResult :=
  let aNorm0 := normalize_text a
  let bNorm0 := normalize_text b
  let aNorm := if caseSensitive then aNorm0 else aNorm0.toLower
  let bNorm := if caseSensitive then bNorm0 else bNorm0.toLower
  match ct with
  | .exactText =>
      if aNorm = bNorm then { success := true, message := "Text matches exactly" }
      else { success := false,
             message := "Text mismatch:\nLEGACY: " ++ squote aNorm ++ "\nMODERN: " ++ squote bNorm }
  | .fuzzyText =>
      let similarity := ratioScore aNorm.data bNorm.data
      if cc.fuzzyThreshold ≤ similarity then
        { success := true, message := "Text similarity: " ++ pctFmt similarity,
          similarityScore := some similarity }
      else
        { success := false,
          message := "Text similarity " ++ pctFmt similarity ++ " below threshold " ++
            pctFmt cc.fuzzyThreshold ++ ":\nLEGACY: " ++ squote aNorm ++ "\nMODERN: " ++ squote bNorm,
          similarityScore := some similarity }

/-! ## Structural comparators (compare.py) -/

/-- `d.get(k, default)` on an association list modelling a Python dict
(keys unique; `List.lookup` returns the first binding). -/
def dgetD {α : Type} (d : List (String × α)) (k : String) (dflt : α) : α :=
  (d.lookup k).getD dflt

/-- `f"{d.get(k)}"`: a missing key prints as `None`. -/
def pyOptStr (o : Option String) : String :=
  match o with
  | some v => v
  | none => "None"

/-- Python `sep.join(parts)`. -/
def pyJoin (sep : String) : List String → String
  | [] => ""
  | [x] => x
  | x :: xs => x ++ sep ++ pyJoin sep xs

/-- The regression triples `(key, a_val, b_val)` collected by
`compare_accessibility_structure` (iteration over `a.items()` only;
`b_val = b.get(key, 0)`). -/
def accRegressions (a b : List (String × Int)) : List (String × Int × Int) :=
  a.filterMap (fun p =>
    let bVal := dgetD b p.1 0
    if bVal > p.2 then some (p.1, p.2, bVal) else none)

/-- The improvement triples of `compare_accessibility_structure`. -/
def accImprovements (a b : List (String × Int)) : List (String × Int × Int) :=
  a.filterMap (fun p =>
    let bVal := dgetD b p.1 0
    if bVal < p.2 then some (p.1, p.2, bVal) else none)

/-- `f"{k}: {a_v}→{b_v}"`. -/
def accPairMsg (p : String × Int × Int) : String :=
  p.1 ++ ": " ++ toString p.2.1 ++ "→" ++ toString p.2.2

/-- `compare_accessibility_structure` (compare.py lines 345-369).
Count maps are association lists with unique keys; values are Python
ints. -/
def compare_accessibility_structure (a b : List (String × Int)) : CompResult :=
  let regressions := accRegressions a b
  let improvements := accImprovements a b
  if regressions ≠ [] then
    { success := false,
      message := "Accessibility regressions: " ++
        pyJoin ", " (regressions.map accPairMsg) }
  else if improvements ≠ [] then
    { success := true,
      message := "Accessibility improvements: " ++
        pyJoin ", " (improvements.map accPairMsg) }
  else { success := true, message := "Accessibility metrics unchanged" }

/-- One form input, modelled as its attribute dict with values already
rendered by `str()` (the code only ever uses `str(ai.get(field, ""))`
and interpolates the same value into the message, so the `str`-image is
observationally sufficient). -/
def FormInput : Type := List (String × String)

/-- The fields compared per input in `compare_form_structure`. -/
def formFields : List String := ["name", "type", "label", "required", "placeholder"]

/-- `f"Input[{i}] {field}: L='{a_val}' M='{b_val}'"`. -/
def formDiffEntry (i : Nat) (field aVal bVal : String) : String :=
  "Input[" ++ toString i ++ "] " ++ field ++ ": L=" ++ squote aVal ++ " M=" ++ squote bVal

/-- The `differences` list of `compare_form_structure`: the nested
`for i, (ai, bi) in enumerate(zip(a_inputs, b_inputs))` loop. -/
def formDiffsFrom (i : Nat) : List FormInput → List FormInput → List String
  | [], _ => []
  | _, [] => []
  | ai :: restA, bi :: restB =>
      (formFields.filterMap (fun field =>
        let aVal := dgetD ai field ""
        let bVal := dgetD bi field ""
        if aVal ≠ bVal then some (formDiffEntry i field aVal bVal) else none))
      ++ formDiffsFrom (i+1) restA restB

/-- `compare_form_structure` (compare.py lines 288-313) applied to the
`inputs` lists (`a.get("inputs", [])` / `b.get("inputs", [])`). -/
def compare_form_structure (aInputs bInputs : List FormInput) : CompResult :=
  if aInputs.length ≠ bInputs.length then
    { success := false,
      message := "Form input count differs: L=" ++ toString aInputs.length ++
        " M=" ++ toString bInputs.length }
  else
    let differences := formDiffsFrom 0 aInputs bInputs
    if differences ≠ [] then
      { success := false,
        message := "Form structure differs:\n" ++ pyJoin "\n" differences }
    else
      { success := true,
        message := "Form structure matches: " ++ toString aInputs.length ++ " inputs" }

/-- Keys checked by `compare_pagination`, in order. -/
def paginationKeys : List String := ["current", "total", "has_next", "has_prev"]

/-- `f"Pagination {k} differs: L='{a.get(k)}' M='{b.get(k)}'"`. -/
def paginationMsg (a b : List (String × String)) (k : String) : String :=
  "Pagination " ++ k ++ " differs: L=" ++ squote (pyOptStr (a.lookup k)) ++
    " M=" ++ squote (pyOptStr (b.lookup k))

/-- The `for k in keys` loop of `compare_pagination`: `return` on the
FIRST differing key.  Values are modelled by their `str()` rendering
(the comparison is `str(a.get(k, "")) != str(b.get(k, ""))`). -/
def paginationGo (a b : List (String × String)) : List String → CompResult
  | [] => { success := true, message := "Pagination structure matches" }
  | k :: ks =>
      if dgetD a k "" ≠ dgetD b k "" then { success := false, message := paginationMsg a b k }
      else paginationGo a b ks

/-- `compare_pagination` (compare.py lines 428-438). -/
def compare_pagination (a b : List (String × String)) : CompResult :=
  paginationGo a b paginationKeys

/-- Keys checked by `compare_widgets`, in order. -/
def widgetKeys : List String := ["toasts", "dialogs", "tooltips"]

/-- Python `repr` of a list of strings, for the f-string interpolation
`f"L={a.get(k, [])}"` (assumes the strings contain no quote or escape
characters, as in every instance below). -/
def pyReprStrList (l : List String) : String :=
  "[" ++ pyJoin ", " (l.map squote) ++ "]"

/-- `f"Widgets {k} differ: L={a.get(k, [])} M={b.get(k, [])}"`. -/
def widgetsMsg (a b : List (String × List String)) (k : String) : String :=
  "Widgets " ++ k ++ " differ: L=" ++ pyReprStrList (dgetD a k []) ++
    " M=" ++ pyReprStrList (dgetD b k [])

/-- The `for k in [...]` loop of `compare_widgets`: `return` on the
FIRST differing key. -/
def widgetsGo (a b : List (String × List String)) : List String → CompResult
  | [] => { success := true, message := "Widgets structure matches" }
  | k :: ks =>
      if dgetD a k [] ≠ dgetD b k [] then { success := false, message := widgetsMsg a b k }
      else widgetsGo a b ks

/-- `compare_widgets` (compare.py lines 440-449). -/
def compare_widgets (a b : List (String × List String)) : CompResult :=
  widgetsGo a b widgetKeys

/-- The 24 count keys of `compare_page_architecture` and
`compare_page_structure`. -/
def pageCountKeys : List String :=
  ["total_elements", "divs", "spans", "paragraphs", "sections", "articles",
   "asides", "lists", "list_items", "forms", "tables", "images", "links",
   "buttons", "inputs", "selects", "textareas", "iframes", "scripts",
   "styles", "meta_tags", "title_tags", "headings", "landmarks"]

/-- The ratio keys of `compare_page_architecture`. -/
def pageRatioKeys : List String :=
  ["element_density", "semantic_ratio", "interactive_ratio"]

/-- `compare_page_architecture` (compare.py lines 735-758).  Values are
numbers (modelled as `ℚ`).  NOTE: the source reads BOTH compared values
from `a` (`b_val = a.get(key, 0)` on lines 741 and 748) — this is
embedded verbatim.  The difference messages in the source format with
`{a_val:.3f}`; the branch is unreachable (proved below), and the
message is rendered with `toString`. -/
def compare_page_architecture (a b : List (String × ℚ)) : CompResult :=
  let differences :=
    (pageCountKeys.filterMap (fun key =>
      let aVal := dgetD a key 0
      let bVal := dgetD a key 0
      if aVal ≠ bVal then
        some ("Architecture " ++ key ++ ": L=" ++ toString aVal ++ " M=" ++ toString bVal)
      else none))
    ++ (pageRatioKeys.filterMap (fun key =>
      let aVal := dgetD a key 0
      let bVal := dgetD a key 0
      if |aVal - bVal| > 1/10 then
        some ("Architecture ratio " ++ key ++ ": L=" ++ toString aVal ++ " M=" ++ toString bVal)
      else none))
  if differences ≠ [] then
    { success := false,
      message := "Page architecture differs:\n" ++ pyJoin "\n" differences }
  else { success := true, message := "Page architecture matches" }

/-- The module-level `compare_page_structure` (compare.py lines
1244-1260, monkey-patched onto the class at line 1288), with the same
`b_val = a.get(key, 0)` self-comparison on line 1250, embedded
verbatim. -/
def compare_page_structure (a b : List (String × ℚ)) : CompResult :=
  let differences :=
    pageCountKeys.filterMap (fun key =>
      let aVal := dgetD a key 0
      let bVal := dgetD a key 0
      if aVal ≠ bVal then
        some ("Page " ++ key ++ ": L=" ++ toString aVal ++ " M=" ++ toString bVal)
      else none)
  if differences ≠ [] then
    { success := false,
      message := "Page structure differs:\n" ++ pyJoin "\n" differences }
  else { success := true, message := "Page structure matches" }

/-! ## SemanticFieldComparator (semantic_field_comparator.py)

A located DOM element is modelled by the attributes the comparator
reads.  `precedingLabelText = none` models
`find_element("xpath", "preceding-sibling::label")` raising
`NoSuchElementException`; `some t` models a found label element whose
`.text` is `t`.  Attribute fields are `none` when `get_attribute`
returns `None`. -/
structure WebElem where
  tagName : String := "input"
  typeAttr : Option String := none
  requiredAttr : Option String := none
  placeholderAttr : Option String := none
  nameAttr : Option String := none
  idAttr : Option String := none
  ariaLabelAttr : Option String := none
  titleAttr : Option String := none
  precedingLabelText : Option String := none
  text : String := ""
deriving DecidableEq

/-- Python `x or dflt` for an optional string `x` (both `None` and the
empty string are falsy). -/
def pyOr (o : Option String) (dflt : String) : String :=
  match o with
  | some s => if s = "" then dflt else s
  | none => dflt

/-- Python truthiness of an optional string. -/
def pyTruthy (o : Option String) : Bool :=
  match o with
  | some s => s ≠ ""
  | none => false

/-- Python `x in y` on strings: substring containment. -/
def pyInStr (x y : String) : Bool :=
  (List.range (y.data.length + 1)).any (fun i => x.data.isPrefixOf (y.data.drop i))

/-- `fuzzywuzzy.fuzz.ratio` in its pure-Python configuration:
`int(round(100 * SequenceMatcher(None, s1, s2).ratio()))`. -/
def fuzzScore (s1 s2 : String) : ℤ := pyRound (100 * ratioScore s1.data s2.data)

/-- The dict produced by `_extract_field_properties` (lines 281-301).
The `try/except` is not modelled: attribute reads on the pure element
model cannot raise. -/
structure FieldProps where
  tagName : String
  fieldType : String
  required : Bool
  placeholder : String
  name : String
  id : String
deriving DecidableEq

/-- `_extract_field_properties`. -/
def extract_field_properties (e : WebElem) : FieldProps :=
  { tagName := e.tagName.toLower
    fieldType := pyOr e.typeAttr "text"
    required := e.requiredAttr ≠ none
    placeholder := pyOr e.placeholderAttr ""
    name := pyOr e.nameAttr ""
    id := pyOr e.idAttr "" }

/-- `_compare_field_types` (lines 303-320).  `field_types` is
`semantic_rules['field_types']` as an ordered association list of
`category ↦ token list`.  Note the source tests `legacy_type in
selector` — Python SUBSTRING containment against each token, not list
membership. -/
def compare_field_types (fieldTypes : List (String × List String))
    (legacyType modernType : Option String) : Bool :=
  if !pyTruthy legacyType || !pyTruthy modernType then true
  else
    let lt := legacyType.getD ""
    let mt := modernType.getD ""
    if fieldTypes.any (fun cat =>
        (cat.2.any fun sel => pyInStr lt sel) && (cat.2.any fun sel => pyInStr mt sel)) then
      true
    else lt == mt

/-- Result dict of `_compare_field_properties`: `noElements` is
`{'match': False, 'reason': 'No elements to compare'}`. -/
inductive PropsCompare where
  | noElements
  | compared (typeMatch requiredMatch : Bool) (legacyProps modernProps : FieldProps)
deriving DecidableEq

/-- The `'match'` entry of the `_compare_field_properties` dict. -/
def PropsCompare.isMatch : PropsCompare → Bool
  | .noElements => false
  | .compared t r _ _ => t && r

/-- `_compare_field_properties` (lines 258-279): compares the FIRST
element of each side. -/
def compare_field_properties (fieldTypes : List (String × List String))
    (legacyElements modernElements : List WebElem) : PropsCompare :=
  match legacyElements, modernElements with
  | [], _ => .noElements
  | _, [] => .noElements
  | le :: _, me :: _ =>
      let lp := extract_field_properties le
      let mp := extract_field_properties me
      .compared (compare_field_types fieldTypes (some lp.fieldType) (some mp.fieldType))
        (lp.required == mp.required) lp mp

/-- A `WebElement` object is always truthy in Python, so
`if label:` after a successful `find_element` always takes the
then-branch. -/
def webElementTruthy : Bool := true

/-- The body of `_extract_field_text` (lines 342-367) before its
`except` handler: `Except.error ()` models an uncaught
`NoSuchElementException` from the `preceding-sibling::label` lookup.
The aria-label and title checks after the label `return` are embedded
as written; they are dead code (proved below) because a missing label
raises instead of falling through. -/
def extract_field_text_raw (e : WebElem) : Except Unit String := do
  let placeholder := pyOr e.placeholderAttr ""
  if placeholder ≠ "" then return placeholder
  let lbl ← match e.precedingLabelText with
            | none => Except.error ()
            | some t => Except.ok t
  if webElementTruthy then return lbl
  let ariaLabel := pyOr e.ariaLabelAttr ""
  if ariaLabel ≠ "" then return ariaLabel
  let title := pyOr e.titleAttr ""
  if title ≠ "" then return title
  return ""

/-- `_extract_field_text` with its `except Exception: return ''`. -/
def extract_field_text (e : WebElem) : String :=
  match extract_field_text_raw e with
  | .ok s => s
  | .error _ => ""

/-- Result dict of `_compare_field_labels`: `noElements` is
`{'match': False, 'reason': 'No elements to compare'}`; `compared`
carries the `match`, `similarity`, `legacy_text`, `modern_text`
entries. -/
inductive LabelCompare where
  | noElements
  | compared (textMatch : Bool) (similarity : ℚ) (legacyText modernText : String)
deriving DecidableEq

/-- The `'match'` entry of the `_compare_field_labels` dict. -/
def LabelCompare.isMatch : LabelCompare → Bool
  | .noElements => false
  | .compared m _ _ _ => m

/-- `_compare_field_labels` (lines 322-340):
`fuzz.ratio(legacy.lower(), modern.lower()) / 100.0` against
`text_similarity_threshold`. -/
def compare_field_labels (threshold : ℚ)
    (legacyElements modernElements : List WebElem) : LabelCompare :=
  match legacyElements, modernElements with
  | [], _ => .noElements
  | _, [] => .noElements
  | le :: _, me :: _ =>
      let legacyText := extract_field_text le
      let modernText := extract_field_text me
      let similarity := (fuzzScore legacyText.toLower modernText.toLower : ℚ) / 100
      .compared (decide (threshold ≤ similarity)) similarity legacyText modernText

/-- Constructor state of `SemanticFieldComparator` that the form-field
path reads: `field_mappings['forms']`, `semantic_rules['field_types']`
and the two comparison settings (with their `.get` defaults).  The
navigation / actions / data-display mappings and `button_types` are
only used by entry points outside the claims and are omitted. -/
structure FormMapping where
  legacy : List (String × String)
  modern : List (String × String)
deriving DecidableEq

structure SemanticComparator where
  formMappings : List (String × FormMapping)
  fieldTypes : List (String × List String)
  textSimilarityThreshold : ℚ := 8/10
  fieldCountTolerance : ℤ := 2

/-- The per-field dict built by `_compare_field_elements`
(lines 229-256); `isMatch` is the `'match'` entry. -/
structure FieldComparison where
  fieldName : String
  legacyCount : Nat
  modernCount : Nat
  countMatch : Bool
  propertiesMatch : Bool
  labelMatch : Bool
  isMatch : Bool
  detailsProperties : PropsCompare
  detailsLabels : LabelCompare
deriving DecidableEq

/-- `_compare_field_elements`. -/
def compare_field_elements (cfg : SemanticComparator) (fieldName : String)
    (legacyElements modernElements : List WebElem) : FieldComparison :=
  let legacyCount := legacyElements.length
  let modernCount := modernElements.length
  let countMatch := decide (|(legacyCount : ℤ) - (modernCount : ℤ)| ≤ cfg.fieldCountTolerance)
  let fieldProperties := compare_field_properties cfg.fieldTypes legacyElements modernElements
  let labels := compare_field_labels cfg.textSimilarityThreshold legacyElements modernElements
  { fieldName := fieldName
    legacyCount := legacyCount
    modernCount := modernCount
    countMatch := countMatch
    propertiesMatch := fieldProperties.isMatch
    labelMatch := labels.isMatch
    isMatch := countMatch && fieldProperties.isMatch && labels.isMatch
    detailsProperties := fieldProperties
    detailsLabels := labels }

/-- Python `str.split(sep)` for a one-character separator:
`"".split(',') = [""]`, and empty pieces are kept. -/
def splitOnChar (c : Char) : List Char → List (List Char)
  | [] => [[]]
  | a :: t =>
      let r := splitOnChar c t
      if a = c then [] :: r
      else
        match r with
        | [] => [[a]]
        | h :: rest => (a :: h) :: rest

/-- `_find_elements_by_selectors` (lines 175-195): empty/falsy selector
strings yield no elements; otherwise the comma-separated alternatives
(`selectors.split(',')`, each piece `.strip()`-ed) are each resolved.
The per-selector resolution (`driver.find_elements` / the `:contains`
JavaScript path, including its exception-to-warning handling that
degrades a failing selector to no elements) is the external driver
collaborator, abstracted as `find`. -/
def findElementsBySelectors (find : String → List WebElem) (selectors : String) :
    List WebElem :=
  if selectors = "" then []
  else ((splitOnChar ',' selectors.data).map pyStrip).flatMap (fun sel => find ⟨sel⟩)

/-- The results dict of `compare_form_fields`. -/
structure FormFieldResults where
  formType : String
  fieldComparisons : List (String × FieldComparison)
  overallMatch : Bool
  missingFields : List String
  extraFields : List String
deriving DecidableEq

/-- `compare_form_fields` either returns `{'error': ...}` (unknown form
type) or the results dict. -/
inductive FormCompareOutcome where
  | err (msg : String)
  | ok (r : FormFieldResults)
deriving DecidableEq

/-- One iteration of the `for field_name, legacy_selectors in
form_mapping.get('legacy', {}).items()` loop of `compare_form_fields`
(lines 44-61). -/
def processFormField (cfg : SemanticComparator) (mapping : FormMapping)
    (legacyFind modernFind : String → List WebElem)
    (acc : FormFieldResults) (entry : String × String) : FormFieldResults :=
  let fieldName := entry.1
  let legacySelectors := entry.2
  let modernSelectors := dgetD mapping.modern fieldName ""
  let legacyElements := findElementsBySelectors legacyFind legacySelectors
  let modernElements := findElementsBySelectors modernFind modernSelectors
  let fc := compare_field_elements cfg fieldName legacyElements modernElements
  let acc' := { acc with fieldComparisons := acc.fieldComparisons ++ [(fieldName, fc)] }
  if fc.isMatch then acc'
  else
    { acc' with
      overallMatch := false
      missingFields := acc'.missingFields
        ++ (if fc.legacyCount = 0 then ["legacy_" ++ fieldName] else [])
        ++ (if fc.modernCount = 0 then ["modern_" ++ fieldName] else []) }

/-- `SemanticFieldComparator.compare_form_fields` (lines 26-71).
`legacyFind` and `modernFind` stand for single-selector resolution on
the legacy and modern drivers. -/
def compare_form_fields (cfg : SemanticComparator)
    (legacyFind modernFind : String → List WebElem) (formType : String) :
    FormCompareOutcome :=
  match cfg.formMappings.lookup formType with
  | none => .err ("No mappings for form type: " ++ formType)
  | some formMapping =>
      let init : FormFieldResults :=
        { formType := formType, fieldComparisons := [], overallMatch := true,
          missingFields := [], extraFields := [] }
      let results :=
        formMapping.legacy.foldl (processFormField cfg formMapping legacyFind modernFind) init
      let extra := formMapping.modern.filterMap (fun p =>
        if (formMapping.legacy.lookup p.1).isNone then
          (if findElementsBySelectors modernFind p.2 ≠ [] then some p.1 else none)
        else none)
      .ok { results with extraFields := results.extraFields ++ extra }

/-! ## Spec-side definitions used by refinement claims -/

/-- Modelled from the spec wording quoted by claim C2 ("Two concrete
types are equivalent if there exists a category whose token list
contains both"; "if no rule covers either type, fall back to exact
string equality"): category token lists are consulted by MEMBERSHIP,
with exact equality as the fallback when no category covers the
types. -/
def specTypeEquiv (fieldTypes : List (String × List String)) (t1 t2 : String) : Bool :=
  if fieldTypes.any (fun cat => cat.2.contains t1 && cat.2.contains t2) then true
  else if fieldTypes.any (fun cat => cat.2.contains t1 || cat.2.contains t2) then false
  else t1 == t2

/-- Modelled from the spec wording quoted by claim C3: the text used
for the label match is the first non-empty value among label,
placeholder, aria-label and title, in that priority order. -/
def extract_field_text_claimed (e : WebElem) : String :=
  let lbl := e.precedingLabelText.getD ""
  if lbl ≠ "" then lbl
  else if pyOr e.placeholderAttr "" ≠ "" then pyOr e.placeholderAttr ""
  else if pyOr e.ariaLabelAttr "" ≠ "" then pyOr e.ariaLabelAttr ""
  else if pyOr e.titleAttr "" ≠ "" then pyOr e.titleAttr ""
  else ""

/-! ## Helper lemmas -/

theorem isPrefixOf_iff_pre (l1 l2 : List Char) : l1.isPrefixOf l2 = true ↔ l1 <+: l2 :=
  List.isPrefixOf_iff_prefix

theorem pyInStr_iff (x y : String) : pyInStr x y = true ↔ x.data <:+: y.data := by
  unfold pyInStr
  rw [List.any_eq_true]
  constructor
  · rintro ⟨i, _, hpre⟩
    rw [isPrefixOf_iff_pre] at hpre
    exact hpre.isInfix.trans (List.drop_suffix i y.data).isInfix
  · rintro ⟨s, t, h⟩
    refine ⟨s.length, ?_, ?_⟩
    · rw [List.mem_range]
      have hlen := congrArg List.length h
      simp only [List.length_append] at hlen
      omega
    · rw [isPrefixOf_iff_pre]
      have : y.data.drop s.length = x.data ++ t := by
        rw [← h, List.append_assoc, List.drop_left]
      rw [this]
      exact List.prefix_append _ _

/-! ## Claim C8 -/

/-- C8: `compare_page_architecture` and `compare_page_structure` read
both compared values from the first argument (`b_val = a.get(key, 0)`),
so for every pair of (numeric-valued) inputs they succeed regardless of
the second argument's contents. -/
theorem c8_page_comparators_always_succeed (a b : List (String × ℚ)) :
    compare_page_architecture a b =
      { success := true, message := "Page architecture matches" } ∧
    compare_page_structure a b =
      { success := true, message := "Page structure matches" } := by
  constructor
  · unfold compare_page_architecture
    simp
  · unfold compare_page_structure
    simp

/-! ## Claim C9 -/

/-- C9: whenever either extracted field type is `None` or the empty
string, `_compare_field_types` returns `True` unconditionally,
independent of the other side's type and of the configured semantic
rules. -/
theorem c9_falsy_type_passes (fieldTypes : List (String × List String))
    (other : Option String) :
    compare_field_types fieldTypes none other = true ∧
    compare_field_types fieldTypes (some "") other = true ∧
    compare_field_types fieldTypes other none = true ∧
    compare_field_types fieldTypes other (some "") = true := by
  refine ⟨?_, ?_, ?_, ?_⟩ <;> simp [compare_field_types, pyTruthy]

/-! ## Claim C2 -/

/-- C2 counterexample: with the single category
`"text-like" ↦ ["text", "email"]`, the types `"ex"` and `"em"` are
neither members of any token list nor equal, so the claimed
characterisation says they are not equivalent — but the code tests
substring containment (`legacy_type in selector`), finds `"ex"` inside
`"text"` and `"em"` inside `"email"`, and returns `True`. -/
theorem c2_counterexample :
    compare_field_types [("text-like", ["text", "email"])] (some "ex") (some "em") = true ∧
    specTypeEquiv [("text-like", ["text", "email"])] "ex" "em" = false := by
  decide

/-- C2 amended: for non-empty concrete types, the equivalence check
returns `True` iff some configured category has `t1` as a substring of
one of its tokens AND `t2` as a substring of one of its tokens, or
`t1 = t2`; in particular every type is equivalent to itself. -/
theorem c2_substring_equivalence (ft : List (String × List String)) (t1 t2 : String)
    (h1 : t1 ≠ "") (h2 : t2 ≠ "") :
    (compare_field_types ft (some t1) (some t2) = true ↔
      (∃ cat ∈ ft, (∃ sel ∈ cat.2, t1.data <:+: sel.data) ∧
                   (∃ sel ∈ cat.2, t2.data <:+: sel.data)) ∨ t1 = t2) ∧
    compare_field_types ft (some t1) (some t1) = true := by
  have hl : pyTruthy (some t1) = true := by simp [pyTruthy, h1]
  have hr : pyTruthy (some t2) = true := by simp [pyTruthy, h2]
  constructor
  · unfold compare_field_types
    rw [hl, hr]
    simp only [Bool.not_true, Bool.or_self, if_false, Option.getD_some]
    by_cases hany : (ft.any (fun cat =>
        (cat.2.any fun sel => pyInStr t1 sel) && (cat.2.any fun sel => pyInStr t2 sel))) = true
    · rw [if_pos hany]
      constructor
      · intro _
        rw [List.any_eq_true] at hany
        obtain ⟨cat, hcat, hboth⟩ := hany
        rw [Bool.and_eq_true, List.any_eq_true, List.any_eq_true] at hboth
        obtain ⟨⟨s1, hs1, hin1⟩, ⟨s2, hs2, hin2⟩⟩ := hboth
        rw [pyInStr_iff] at hin1 hin2
        exact Or.inl ⟨cat, hcat, ⟨s1, hs1, hin1⟩, ⟨s2, hs2, hin2⟩⟩
      · intro _
        rfl
    · have hany' : (ft.any (fun cat =>
          (cat.2.any fun sel => pyInStr t1 sel) && (cat.2.any fun sel => pyInStr t2 sel))) = false := by
        revert hany
        cases ft.any (fun cat =>
          (cat.2.any fun sel => pyInStr t1 sel) && (cat.2.any fun sel => pyInStr t2 sel)) <;> simp
      rw [hany']
      simp only [Bool.false_eq_true, if_false, beq_iff_eq]
      constructor
      · exact Or.inr
      · intro hor
        rcases hor with hex | heq
        · exfalso
          apply hany
          rw [List.any_eq_true]
          obtain ⟨cat, hcat, ⟨s1, hs1, hin1⟩, ⟨s2, hs2, hin2⟩⟩ := hex
          refine ⟨cat, hcat, ?_⟩
          rw [Bool.and_eq_true, List.any_eq_true, List.any_eq_true]
          exact ⟨⟨s1, hs1, (pyInStr_iff _ _).mpr hin1⟩, ⟨s2, hs2, (pyInStr_iff _ _).mpr hin2⟩⟩
        · exact heq
  · unfold compare_field_types
    rw [hl]
    simp only [Bool.not_true, Bool.or_self, if_false, Option.getD_some]
    split
    · rfl
    · simp

/-- C2 witness: the amended characterisation evaluated at the
counterexample's rules with types `"email"` and `"text"` (equivalent
through the category) and at `"password"` with itself. -/
theorem c2_substring_equivalence_witness :
    (compare_field_types [("text-like", ["text", "email"])] (some "email") (some "text") = true ↔
      (∃ cat ∈ [("text-like", ["text", "email"])],
        (∃ sel ∈ cat.2, "email".data <:+: sel.data) ∧
        (∃ sel ∈ cat.2, "text".data <:+: sel.data)) ∨ "email" = "text") ∧
    compare_field_types [("text-like", ["text", "email"])] (some "email") (some "email") = true :=
  c2_substring_equivalence [("text-like", ["text", "email"])] "email" "text"
    (by decide) (by decide)

/-! ## Claim C3 -/

/-- C3 counterexample: an element with an empty placeholder, no
preceding-sibling label and a non-empty aria-label.  The claim (and the
spec) say the aria-label is used; the code raises
`NoSuchElementException` inside the label lookup, lands in the
`except` handler and yields the empty string — the aria-label branch is
dead code. -/
theorem c3_counterexample :
    extract_field_text
      { tagName := "input", placeholderAttr := some "", precedingLabelText := none,
        ariaLabelAttr := some "Email address", titleAttr := some "The email" } = "" ∧
    extract_field_text_claimed
      { tagName := "input", placeholderAttr := some "", precedingLabelText := none,
        ariaLabelAttr := some "Email address", titleAttr := some "The email" } =
      "Email address" := by
  decide

/-- C3 amended: the text used for the label match is the placeholder
when it is non-empty; otherwise the preceding-sibling label's text when
such a label exists (even if that text is empty); otherwise the empty
string.  The aria-label and title attributes are never consulted. -/
theorem c3_placeholder_then_label (e : WebElem) (x y : Option String) :
    extract_field_text e =
      (if pyOr e.placeholderAttr "" ≠ "" then pyOr e.placeholderAttr ""
       else e.precedingLabelText.getD "") ∧
    extract_field_text e =
      extract_field_text { e with ariaLabelAttr := x, titleAttr := y } := by
  rcases e with ⟨tg, ty, rq, ph, nm, idv, al, ti, lb, tx⟩
  simp only [extract_field_text, extract_field_text_raw, webElementTruthy]
  cases lb <;> split_ifs <;> simp_all [bind, Except.bind, pure, Except.pure]

/-! ## Claim C4 -/

theorem accRegressions_eq_nil_iff (a b : List (String × Int)) :
    accRegressions a b = [] ↔ ∀ p ∈ a, dgetD b p.1 0 ≤ p.2 := by
  unfold accRegressions
  rw [List.filterMap_eq_nil_iff]
  constructor
  · intro h p hp
    have h2 := h p hp
    by_contra hgt
    rw [if_pos (by omega : dgetD b p.1 0 > p.2)] at h2
    exact Option.some_ne_none _ h2
  · intro h p hp
    rw [if_neg (by have := h p hp; omega)]

/-- C4: the accessibility comparison fails exactly when some counter of
the legacy map increases in the modern map, passes when every legacy
counter stays equal or decreases, reports strict decreases as
improvements in the message, and in particular fails on
`{images_missing_alt: 2}` vs `{images_missing_alt: 5}`. -/
theorem c4_accessibility_regressions (a b : List (String × Int)) :
    ((compare_accessibility_structure a b).success = true ↔
      ∀ p ∈ a, dgetD b p.1 0 ≤ p.2) ∧
    ((∀ p ∈ a, dgetD b p.1 0 ≤ p.2) → (∃ p ∈ a, dgetD b p.1 0 < p.2) →
      ∃ rest, (compare_accessibility_structure a b).message =
        "Accessibility improvements: " ++ rest) ∧
    (compare_accessibility_structure [("images_missing_alt", 2)]
      [("images_missing_alt", 5)]).success = false := by
  refine ⟨?_, ?_, by decide⟩
  · rw [← accRegressions_eq_nil_iff a b]
    unfold compare_accessibility_structure
    dsimp only
    split_ifs with h1 h2 <;> simp_all
  · intro hle hlt
    have hreg : accRegressions a b = [] := (accRegressions_eq_nil_iff a b).mpr hle
    have himp : accImprovements a b ≠ [] := by
      obtain ⟨p, hp, hplt⟩ := hlt
      intro hnil
      unfold accImprovements at hnil
      rw [List.filterMap_eq_nil_iff] at hnil
      have := hnil p hp
      rw [if_pos hplt] at this
      exact Option.some_ne_none _ this
    refine ⟨pyJoin ", " ((accImprovements a b).map accPairMsg), ?_⟩
    unfold compare_accessibility_structure
    rw [if_neg (by simp [hreg]), if_pos himp]

/-- C4 witness: at `{images_missing_alt: 3}` vs `{images_missing_alt: 1}`
the comparison passes and reports an improvement; the hypotheses of the
theorem are discharged by computation. -/
theorem c4_accessibility_regressions_witness :
    (compare_accessibility_structure [("images_missing_alt", 3)]
      [("images_missing_alt", 1)]).success = true ∧
    ∃ rest, (compare_accessibility_structure [("images_missing_alt", 3)]
      [("images_missing_alt", 1)]).message = "Accessibility improvements: " ++ rest :=
  ⟨(c4_accessibility_regressions [("images_missing_alt", 3)] [("images_missing_alt", 1)]).1.mpr
      (by decide),
   (c4_accessibility_regressions [("images_missing_alt", 3)] [("images_missing_alt", 1)]).2.1
      (by decide) (by decide)⟩

/-! ## Claim C10 -/

/-- C10: the accessibility comparison iterates only over the legacy
map's keys, so a binding for a key absent from the legacy map can be
added to the modern map without changing the result at all; in
particular a modern-only nonzero counter causes no failure and is
reported neither as a regression nor as an improvement. -/
theorem c10_modern_only_keys_ignored (a b : List (String × Int)) (k : String) (v : Int)
    (hk : k ∉ a.map Prod.fst) :
    compare_accessibility_structure a ((k, v) :: b) = compare_accessibility_structure a b ∧
    compare_accessibility_structure [("images_missing_alt", 2)]
      [("images_missing_alt", 2), ("new_metric", 99)] =
      { success := true, message := "Accessibility metrics unchanged" } := by
  have hget : ∀ p ∈ a, dgetD ((k, v) :: b) p.1 0 = dgetD b p.1 0 := by
    intro p hp
    have hne : p.1 ≠ k := fun h => hk (h ▸ List.mem_map_of_mem Prod.fst hp)
    have hbeq : (p.1 == k) = false := beq_eq_false_iff_ne.mpr hne
    simp [dgetD, List.lookup, hbeq]
  have hreg : accRegressions a ((k, v) :: b) = accRegressions a b := by
    unfold accRegressions
    apply List.filterMap_congr
    intro p hp
    rw [hget p hp]
  have himp : accImprovements a ((k, v) :: b) = accImprovements a b := by
    unfold accImprovements
    apply List.filterMap_congr
    intro p hp
    rw [hget p hp]
  refine ⟨?_, by decide⟩
  unfold compare_accessibility_structure
  rw [hreg, himp]

/-- C10 witness: prepending a modern-only binding to the modern map
leaves the comparison result unchanged. -/
theorem c10_modern_only_keys_ignored_witness :
    compare_accessibility_structure [("images_missing_alt", 1)]
      (("tab_order_issues", 7) :: [("images_missing_alt", 1)]) =
    compare_accessibility_structure [("images_missing_alt", 1)] [("images_missing_alt", 1)] :=
  (c10_modern_only_keys_ignored [("images_missing_alt", 1)] [("images_missing_alt", 1)]
    "tab_order_issues" 7 (by decide)).1

/-! ## Claim C5 -/

theorem pyJoin_part_sub (sep : String) (l : List String) (s : String) (hs : s ∈ l) :
    s.data <:+: (pyJoin sep l).data := by
  induction l with
  | nil => cases hs
  | cons x xs ih =>
      cases xs with
      | nil =>
          rw [List.mem_singleton] at hs
          subst hs
          exact List.infix_rfl
      | cons y ys =>
          rcases List.mem_cons.mp hs with h | h
          · subst h
            show s.data <:+: (s ++ sep ++ pyJoin sep (y :: ys)).data
            simp only [String.data_append]
            exact ((List.prefix_append _ _).trans (List.prefix_append _ _)).isInfix
          · have := ih h
            show s.data <:+: (x ++ sep ++ pyJoin sep (y :: ys)).data
            simp only [String.data_append]
            exact this.trans (List.suffix_append _ _).isInfix

theorem formDiffsFrom_mem (i : Nat) :
    ∀ (i0 : Nat) (aI bI : List FormInput) (ai bi : FormInput) (f : String),
    aI.get? i = some ai → bI.get? i = some bi → f ∈ formFields →
    dgetD ai f "" ≠ dgetD bi f "" →
    formDiffEntry (i0 + i) f (dgetD ai f "") (dgetD bi f "") ∈ formDiffsFrom i0 aI bI := by
  induction i with
  | zero =>
      intro i0 aI bI ai bi f ha hb hf hne
      cases aI with
      | nil => cases ha
      | cons a0 restA =>
          cases bI with
          | nil => cases hb
          | cons b0 restB =>
              rw [List.get?_cons_zero, Option.some_inj] at ha hb
              subst ha; subst hb
              simp only [Nat.add_zero]
              unfold formDiffsFrom
              apply List.mem_append_left
              rw [List.mem_filterMap]
              exact ⟨f, hf, by rw [if_pos hne]⟩
  | succ n ih =>
      intro i0 aI bI ai bi f ha hb hf hne
      cases aI with
      | nil => cases ha
      | cons a0 restA =>
          cases bI with
          | nil => cases hb
          | cons b0 restB =>
              rw [List.get?_cons_succ] at ha hb
              unfold formDiffsFrom
              apply List.mem_append_right
              have := ih (i0 + 1) restA restB ai bi f ha hb hf hne
              have harith : i0 + 1 + n = i0 + (n + 1) := by omega
              rwa [harith] at this

theorem paginationGo_first_diff (a b : List (String × String)) :
    ∀ (pre : List String) (k : String) (post keys : List String),
    keys = pre ++ k :: post →
    (∀ k2 ∈ pre, dgetD a k2 "" = dgetD b k2 "") →
    dgetD a k "" ≠ dgetD b k "" →
    paginationGo a b keys = { success := false, message := paginationMsg a b k } := by
  intro pre
  induction pre with
  | nil =>
      intro k post keys hkeys _ hne
      subst hkeys
      simp only [List.nil_append]
      unfold paginationGo
      rw [if_pos hne]
  | cons p pre' ih =>
      intro k post keys hkeys hpre hne
      subst hkeys
      simp only [List.cons_append]
      unfold paginationGo
      rw [if_neg (by simp [hpre p (List.mem_cons_self p pre')])]
      exact ih k post _ rfl (fun k2 hk2 => hpre k2 (List.mem_cons_of_mem p hk2)) hne

theorem widgetsGo_first_diff (a b : List (String × List String)) :
    ∀ (pre : List String) (k : String) (post keys : List String),
    keys = pre ++ k :: post →
    (∀ k2 ∈ pre, dgetD a k2 [] = dgetD b k2 []) →
    dgetD a k [] ≠ dgetD b k [] →
    widgetsGo a b keys = { success := false, message := widgetsMsg a b k } := by
  intro pre
  induction pre with
  | nil =>
      intro k post keys hkeys _ hne
      subst hkeys
      simp only [List.nil_append]
      unfold widgetsGo
      rw [if_pos hne]
  | cons p pre' ih =>
      intro k post keys hkeys hpre hne
      subst hkeys
      simp only [List.cons_append]
      unfold widgetsGo
      rw [if_neg (by simp [hpre p (List.mem_cons_self p pre')])]
      exact ih k post _ rfl (fun k2 hk2 => hpre k2 (List.mem_cons_of_mem p hk2)) hne

/-- C5 counterexample: a pagination pair in which BOTH `current` and
`total` differ, yet the failure message names only `current` — the
claimed property that the diff message enumerates every mismatching
key fails for `compare_pagination`. -/
theorem c5_counterexample :
    (compare_pagination [("current", "1"), ("total", "2")]
      [("current", "9"), ("total", "7")]).success = false ∧
    dgetD [("current", "1"), ("total", "2")] "total" "" ≠
      dgetD [("current", "9"), ("total", "7")] "total" "" ∧
    pyInStr "total" (compare_pagination [("current", "1"), ("total", "2")]
      [("current", "9"), ("total", "7")]).message = false := by
  decide

/-- C5 amended: `compare_form_structure` accumulates and lists every
mismatching input field in its failure message, but `compare_pagination`
and `compare_widgets` return on the FIRST mismatching key in their
fixed key order, so their messages name only that first differing
key. -/
theorem c5_diff_enumeration :
    (∀ (aI bI : List FormInput) (i : Nat) (ai bi : FormInput) (f : String),
      aI.length = bI.length → aI.get? i = some ai → bI.get? i = some bi →
      f ∈ formFields → dgetD ai f "" ≠ dgetD bi f "" →
      (compare_form_structure aI bI).success = false ∧
      (formDiffEntry i f (dgetD ai f "") (dgetD bi f "")).data <:+:
        (compare_form_structure aI bI).message.data) ∧
    (∀ (a b : List (String × String)) (pre post : List String) (k : String),
      paginationKeys = pre ++ k :: post →
      (∀ k2 ∈ pre, dgetD a k2 "" = dgetD b k2 "") →
      dgetD a k "" ≠ dgetD b k "" →
      compare_pagination a b = { success := false, message := paginationMsg a b k }) ∧
    (∀ (a b : List (String × List String)) (pre post : List String) (k : String),
      widgetKeys = pre ++ k :: post →
      (∀ k2 ∈ pre, dgetD a k2 [] = dgetD b k2 []) →
      dgetD a k [] ≠ dgetD b k [] →
      compare_widgets a b = { success := false, message := widgetsMsg a b k }) := by
  refine ⟨?_, ?_, ?_⟩
  · intro aI bI i ai bi f hlen ha hb hf hne
    have hmem := formDiffsFrom_mem i 0 aI bI ai bi f ha hb hf hne
    rw [Nat.zero_add] at hmem
    have hdiff : formDiffsFrom 0 aI bI ≠ [] := List.ne_nil_of_mem hmem
    unfold compare_form_structure
    rw [if_neg (by omega), if_pos hdiff]
    refine ⟨rfl, ?_⟩
    show _ <:+: ("Form structure differs:\n" ++ pyJoin "\n" (formDiffsFrom 0 aI bI)).data
    rw [String.data_append]
    exact (pyJoin_part_sub "\n" _ _ hmem).trans (List.suffix_append _ _).isInfix
  · intro a b pre post k hkeys hpre hne
    unfold compare_pagination
    exact paginationGo_first_diff a b pre k post paginationKeys hkeys hpre hne
  · intro a b pre post k hkeys hpre hne
    unfold compare_widgets
    exact widgetsGo_first_diff a b pre k post widgetKeys hkeys hpre hne

/-- C5 witness: the three parts of the amended claim evaluated at
concrete inputs — a one-input form pair differing in `name`, a
pagination pair whose first differing key is `total`, and a widgets
pair whose first differing key is `dialogs`. -/
theorem c5_diff_enumeration_witness :
    ((compare_form_structure [[("name", "user")]] [[("name", "email")]]).success = false ∧
      (formDiffEntry 0 "name" (dgetD [("name", "user")] "name" "")
        (dgetD [("name", "email")] "name" "")).data <:+:
        (compare_form_structure [[("name", "user")]] [[("name", "email")]]).message.data) ∧
    compare_pagination [("current", "1"), ("total", "2")] [("current", "1"), ("total", "9")] =
      { success := false,
        message := paginationMsg [("current", "1"), ("total", "2")]
          [("current", "1"), ("total", "9")] "total" } ∧
    compare_widgets [("toasts", ["a"]), ("dialogs", ["x"])]
        [("toasts", ["a"]), ("dialogs", ["y"])] =
      { success := false,
        message := widgetsMsg [("toasts", ["a"]), ("dialogs", ["x"])]
          [("toasts", ["a"]), ("dialogs", ["y"])] "dialogs" } :=
  ⟨c5_diff_enumeration.1 [[("name", "user")]] [[("name", "email")]] 0
      [("name", "user")] [("name", "email")] "name" rfl rfl rfl (by decide) (by decide),
   c5_diff_enumeration.2.1 [("current", "1"), ("total", "2")] [("current", "1"), ("total", "9")]
      ["current"] ["has_next", "has_prev"] "total" rfl (by decide) (by decide),
   c5_diff_enumeration.2.2 [("toasts", ["a"]), ("dialogs", ["x"])]
      [("toasts", ["a"]), ("dialogs", ["y"])] ["toasts"] ["tooltips"] "dialogs" rfl
      (by decide) (by decide)⟩

/-! ## Claim C1 -/

theorem compare_field_properties_nil_modern (ft : List (String × List String))
    (l : List WebElem) : compare_field_properties ft l [] = .noElements := by
  cases l <;> rfl

theorem processFormField_mono (cfg : SemanticComparator) (mapping : FormMapping)
    (lf mf : String → List WebElem) (acc : FormFieldResults) (entry : String × String)
    (x : String) (pr : String × FieldComparison) :
    (x ∈ acc.missingFields →
      x ∈ (processFormField cfg mapping lf mf acc entry).missingFields) ∧
    (pr ∈ acc.fieldComparisons →
      pr ∈ (processFormField cfg mapping lf mf acc entry).fieldComparisons) := by
  unfold processFormField
  dsimp only
  constructor
  · intro hx
    split
    · exact hx
    · exact List.mem_append_left _ (List.mem_append_left _ hx)
  · intro hp
    split
    · exact List.mem_append_left _ hp
    · exact List.mem_append_left _ hp

theorem foldl_processFormField_mono (cfg : SemanticComparator) (mapping : FormMapping)
    (lf mf : String → List WebElem) :
    ∀ (L : List (String × String)) (acc : FormFieldResults) (x : String)
      (pr : String × FieldComparison),
    (x ∈ acc.missingFields →
      x ∈ (L.foldl (processFormField cfg mapping lf mf) acc).missingFields) ∧
    (pr ∈ acc.fieldComparisons →
      pr ∈ (L.foldl (processFormField cfg mapping lf mf) acc).fieldComparisons) := by
  intro L
  induction L with
  | nil => exact fun acc x pr => ⟨id, id⟩
  | cons e rest ih =>
      intro acc x pr
      rw [List.foldl_cons]
      refine ⟨fun hx => (ih _ x pr).1 ?_, fun hp => (ih _ x pr).2 ?_⟩
      · exact (processFormField_mono cfg mapping lf mf acc e x pr).1 hx
      · exact (processFormField_mono cfg mapping lf mf acc e x pr).2 hp

theorem processFormField_inserts (cfg : SemanticComparator) (mapping : FormMapping)
    (lf mf : String → List WebElem) (acc : FormFieldResults) (fieldName legacySel : String)
    (hmf : findElementsBySelectors mf (dgetD mapping.modern fieldName "") = []) :
    ("modern_" ++ fieldName) ∈
      (processFormField cfg mapping lf mf acc (fieldName, legacySel)).missingFields ∧
    ∃ fc, (fieldName, fc) ∈
      (processFormField cfg mapping lf mf acc (fieldName, legacySel)).fieldComparisons ∧
      fc.isMatch = false := by
  have hfc : (compare_field_elements cfg fieldName
      (findElementsBySelectors lf legacySel) []).isMatch = false := by
    unfold compare_field_elements
    dsimp only
    rw [compare_field_properties_nil_modern]
    simp [PropsCompare.isMatch]
  have hcount : (compare_field_elements cfg fieldName
      (findElementsBySelectors lf legacySel) []).modernCount = 0 := rfl
  unfold processFormField
  dsimp only
  rw [hmf]
  rw [if_neg (by rw [hfc]; exact Bool.false_ne_true)]
  constructor
  · apply List.mem_append_right
    rw [if_pos hcount]
    exact List.mem_singleton_self _
  · refine ⟨compare_field_elements cfg fieldName (findElementsBySelectors lf legacySel) [],
      ?_, hfc⟩
    exact List.mem_append_right _ (List.mem_singleton_self _)

theorem foldl_processFormField_marks (cfg : SemanticComparator) (mapping : FormMapping)
    (lf mf : String → List WebElem) :
    ∀ (L : List (String × String)) (acc : FormFieldResults) (fieldName legacySel : String),
    (fieldName, legacySel) ∈ L →
    findElementsBySelectors mf (dgetD mapping.modern fieldName "") = [] →
    ("modern_" ++ fieldName) ∈
      (L.foldl (processFormField cfg mapping lf mf) acc).missingFields ∧
    ∃ fc, (fieldName, fc) ∈
      (L.foldl (processFormField cfg mapping lf mf) acc).fieldComparisons ∧
      fc.isMatch = false := by
  intro L
  induction L with
  | nil => intro acc fieldName legacySel h; cases h
  | cons e rest ih =>
      intro acc fieldName legacySel hmem hmf
      rw [List.foldl_cons]
      rcases List.mem_cons.mp hmem with he | he
      · subst he
        obtain ⟨h1, fc, h2, h3⟩ :=
          processFormField_inserts cfg mapping lf mf acc fieldName legacySel hmf
        refine ⟨(foldl_processFormField_mono cfg mapping lf mf rest _
            ("modern_" ++ fieldName) (fieldName, fc)).1 h1,
          fc, (foldl_processFormField_mono cfg mapping lf mf rest _
            ("modern_" ++ fieldName) (fieldName, fc)).2 h2, h3⟩
      · exact ih _ fieldName legacySel he hmf

/-- C1: for every configured form type and field mapped on the legacy
side, a run in which the modern selector locates no elements while the
legacy selector locates at least one makes `compare_form_fields` mark
that field's comparison as non-matching and put `modern_<field>` into
the returned `missing_fields` list. -/
theorem c1_missing_modern_field (cfg : SemanticComparator)
    (lf mf : String → List WebElem) (formType : String) (mapping : FormMapping)
    (fieldName legacySel : String)
    (hm : cfg.formMappings.lookup formType = some mapping)
    (hfield : (fieldName, legacySel) ∈ mapping.legacy)
    (hmodern : findElementsBySelectors mf (dgetD mapping.modern fieldName "") = [])
    (hlegacy : findElementsBySelectors lf legacySel ≠ []) :
    ∃ r, compare_form_fields cfg lf mf formType = .ok r ∧
      ("modern_" ++ fieldName) ∈ r.missingFields ∧
      ∃ fc, (fieldName, fc) ∈ r.fieldComparisons ∧ fc.isMatch = false := by
  unfold compare_form_fields
  rw [hm]
  dsimp only
  refine ⟨_, rfl, ?_⟩
  obtain ⟨h1, fc, h2, h3⟩ :=
    foldl_processFormField_marks cfg mapping lf mf mapping.legacy
      { formType := formType, fieldComparisons := [], overallMatch := true,
        missingFields := [], extraFields := [] } fieldName legacySel hfield hmodern
  exact ⟨h1, fc, h2, h3⟩

/-- C1 witness: a `login` form whose `username` field resolves to one
legacy element and no modern elements. -/
theorem c1_missing_modern_field_witness :
    ∃ r, compare_form_fields
        { formMappings :=
            [("login", { legacy := [("username", "#user")], modern := [("username", "#muser")] })],
          fieldTypes := [("text-like", ["text", "email"])],
          textSimilarityThreshold := 7/10, fieldCountTolerance := 0 }
        (fun _ => [{ tagName := "input" }]) (fun _ => []) "login" = .ok r ∧
      ("modern_" ++ "username") ∈ r.missingFields ∧
      ∃ fc, ("username", fc) ∈ r.fieldComparisons ∧ fc.isMatch = false :=
  c1_missing_modern_field
    { formMappings :=
        [("login", { legacy := [("username", "#user")], modern := [("username", "#muser")] })],
      fieldTypes := [("text-like", ["text", "email"])],
      textSimilarityThreshold := 7/10, fieldCountTolerance := 0 }
    (fun _ => [{ tagName := "input" }]) (fun _ => []) "login"
    { legacy := [("username", "#user")], modern := [("username", "#muser")] }
    "username" "#user" rfl (by decide)
    (by simp [findElementsBySelectors])
    (by simp [findElementsBySelectors, splitOnChar, pyStrip, stripLeft, stripRight])

/-! ## Claim C7 -/

/-- C7 counterexample: with threshold `1/2`, the fuzzy comparison of
`"ab"` and `"bacb"` succeeds with score `2/3` in one order and fails
with score `1/3` in the other — `difflib.SequenceMatcher`'s matching
total depends on argument order, so neither the verdict nor the score
is symmetric. -/
theorem c7_counterexample :
    (compare_text { fuzzyThreshold := 1/2 } "ab" "bacb" .fuzzyText).success = true ∧
    (compare_text { fuzzyThreshold := 1/2 } "bacb" "ab" .fuzzyText).success = false ∧
    (compare_text { fuzzyThreshold := 1/2 } "ab" "bacb" .fuzzyText).similarityScore =
      some (2/3) ∧
    (compare_text { fuzzyThreshold := 1/2 } "bacb" "ab" .fuzzyText).similarityScore =
      some (1/3) := by
  have hm1 : matchTotal "ab".data "bacb".data = 2 := by decide
  have hm2 : matchTotal "bacb".data "ab".data = 1 := by decide
  have hr1 : ratioScore "ab".data "bacb".data = 2/3 := by
    rw [ratioScore, hm1]; norm_num
  have hr2 : ratioScore "bacb".data "ab".data = 1/3 := by
    rw [ratioScore, hm2]; norm_num
  have hn1 : normalize_text "ab" = "ab" := by decide
  have hn2 : normalize_text "bacb" = "bacb" := by decide
  refine ⟨?_, ?_, ?_, ?_⟩ <;>
  · simp only [compare_text, hn1, hn2, if_true, hr1, hr2]
    norm_num

/-- C7 amended: the fuzzy comparison is guaranteed to return the same
verdict and score in both orders only when the two inputs normalize to
the same string (in which case the entire results coincide); in
general, argument order can change both the similarity score and the
success verdict. -/
theorem c7_symmetric_when_normalize_eq (cc : Comparator) (a b : String)
    (h : normalize_text a = normalize_text b) :
    compare_text cc a b .fuzzyText = compare_text cc b a .fuzzyText := by
  simp only [compare_text, h]

/-- C7 witness: two inputs differing only in whitespace run-length
normalize identically, so the fuzzy comparison is symmetric on them. -/
theorem c7_symmetric_when_normalize_eq_witness :
    compare_text {} "x  y" "x y" .fuzzyText = compare_text {} "x y" "x  y" .fuzzyText :=
  c7_symmetric_when_normalize_eq {} "x  y" "x y" (by decide)

/-! ## Claim C6

Idempotence of `normalize_text` fails in general (HTML-entity
re-decoding can happen on a second pass, and the `&nbsp;` entity can
leave a leading or trailing space that only the second pass strips).
The amended claim: idempotence holds for every input containing neither
`&` nor `"`.  The lemmas below establish that on such inputs the first
pass produces a string on which every stage of a second pass is the
identity. -/

/-- The head of the list, if any, is not Python whitespace. -/
def headNotSpace (s : List Char) : Prop :=
  ∀ c, s.head? = some c → isPySpace c = false

/-- The last element of the list, if any, is not Python whitespace. -/
def lastNotSpace (s : List Char) : Prop :=
  ∀ c, s.getLast? = some c → isPySpace c = false

/-- Whitespace-canonical form: every whitespace character is an ASCII
space and no two adjacent characters are both whitespace. -/
def Collapsed (s : List Char) : Prop :=
  (∀ c ∈ s, isPySpace c = true → c = ' ') ∧
  List.Chain' (fun a b => ¬(isPySpace a = true ∧ isPySpace b = true)) s

theorem pyReplaceFuel_id_of_not_mem (p r : List Char) (c : Char) (hc : c ∈ p) :
    ∀ (fuel : Nat) (s : List Char), c ∉ s → pyReplaceFuel fuel s p r = s := by
  intro fuel
  induction fuel with
  | zero => intro s _; cases s <;> rfl
  | succ n ih =>
      intro s hs
      cases s with
      | nil => rfl
      | cons a t =>
          have hpre : p.isPrefixOf (a :: t) = false := by
            by_contra hp
            rw [Bool.not_eq_false, isPrefixOf_iff_pre] at hp
            exact hs (hp.subset hc)
          unfold pyReplaceFuel
          rw [hpre, Bool.and_false, if_neg (by simp)]
          rw [ih t (fun ht => hs (List.mem_cons_of_mem a ht))]

theorem pyReplace_id_of_not_mem (s p r : List Char) (c : Char) (hc : c ∈ p)
    (hs : c ∉ s) : pyReplace s p r = s :=
  pyReplaceFuel_id_of_not_mem p r c hc s.length s hs

theorem mem_pyReplaceFuel (p r : List Char) (x : Char) :
    ∀ (fuel : Nat) (s : List Char), x ∈ pyReplaceFuel fuel s p r → x ∈ s ∨ x ∈ r := by
  intro fuel
  induction fuel with
  | zero => intro s hx; cases s with
      | nil => cases hx
      | cons a t => exact Or.inl hx
  | succ n ih =>
      intro s hx
      cases s with
      | nil => cases hx
      | cons a t =>
          unfold pyReplaceFuel at hx
          by_cases hcond : (!p.isEmpty && p.isPrefixOf (a :: t)) = true
          · rw [if_pos hcond] at hx
            rcases List.mem_append.mp hx with h | h
            · exact Or.inr h
            · rcases ih _ h with h2 | h2
              · exact Or.inl (List.drop_subset _ _ h2)
              · exact Or.inr h2
          · rw [if_neg hcond] at hx
            rcases List.mem_cons.mp hx with h | h
            · exact Or.inl (h ▸ List.mem_cons_self a t)
            · rcases ih t h with h2 | h2
              · exact Or.inl (List.mem_cons_of_mem a h2)
              · exact Or.inr h2

theorem pyReplaceFuel_single_map (c d : Char) :
    ∀ (fuel : Nat) (s : List Char), s.length ≤ fuel →
    pyReplaceFuel fuel s [c] [d] = s.map (fun a => if a = c then d else a) := by
  intro fuel
  induction fuel with
  | zero =>
      intro s hs
      rw [Nat.le_zero, List.length_eq_zero] at hs
      subst hs
      rfl
  | succ n ih =>
      intro s hs
      cases s with
      | nil => rfl
      | cons a t =>
          rw [List.length_cons, Nat.succ_le_succ_iff] at hs
          by_cases hac : a = c
          · subst hac
            unfold pyReplaceFuel
            rw [if_pos (by simp [List.isPrefixOf])]
            simp only [List.length_cons, List.drop_succ_cons, List.length_nil, List.drop_zero,
              List.map_cons, if_pos rfl]
            rw [ih t hs]
            rfl
          · unfold pyReplaceFuel
            have hbeq : (c == a) = false := beq_eq_false_iff_ne.mpr (Ne.symm hac)
            rw [if_neg (by simp [List.isPrefixOf, hbeq])]
            rw [ih t hs]
            simp [hac]

theorem pyReplace_single_map (s : List Char) (c d : Char) :
    pyReplace s [c] [d] = s.map (fun a => if a = c then d else a) :=
  pyReplaceFuel_single_map c d s.length s (Nat.le_refl _)

theorem head_dropWhile_not (p : Char → Bool) :
    ∀ (l : List Char) (c : Char), (l.dropWhile p).head? = some c → p c = false := by
  intro l
  induction l with
  | nil => intro c hc; cases hc
  | cons a t ih =>
      intro c hc
      rw [List.dropWhile_cons] at hc
      by_cases hpa : p a = true
      · rw [if_pos hpa] at hc
        exact ih c hc
      · rw [if_neg hpa] at hc
        rw [List.head?_cons, Option.some_inj] at hc
        subst hc
        exact Bool.eq_false_iff.mpr hpa

theorem headNotSpace_stripLeft (s : List Char) : headNotSpace (stripLeft s) :=
  fun c hc => head_dropWhile_not isPySpace s c hc

theorem stripRight_front (s : List Char) : stripRight s <+: s := by
  unfold stripRight
  have h := List.dropWhile_suffix (l := s.reverse) isPySpace
  have h2 := List.reverse_prefix.mpr h
  rwa [List.reverse_reverse] at h2

theorem headNotSpace_of_front (l u : List Char) (hp : l <+: u)
    (hu : headNotSpace u) : headNotSpace l := by
  intro c hc
  obtain ⟨t, rfl⟩ := hp
  cases l with
  | nil => cases hc
  | cons a l' =>
      rw [List.head?_cons, Option.some_inj] at hc
      subst hc
      exact hu a (by rw [List.cons_append, List.head?_cons])

theorem lastNotSpace_stripRight (s : List Char) : lastNotSpace (stripRight s) := by
  intro c hc
  unfold stripRight at hc
  rw [List.getLast?_reverse] at hc
  exact head_dropWhile_not isPySpace s.reverse c hc

theorem headNotSpace_pyStrip (s : List Char) : headNotSpace (pyStrip s) :=
  headNotSpace_of_front _ _ (stripRight_front (stripLeft s)) (headNotSpace_stripLeft s)

theorem lastNotSpace_pyStrip (s : List Char) : lastNotSpace (pyStrip s) :=
  lastNotSpace_stripRight (stripLeft s)

theorem pyStrip_subset (s : List Char) : pyStrip s ⊆ s := fun _ hx =>
  (List.dropWhile_suffix isPySpace).subset
    ((stripRight_front (stripLeft s)).subset hx)

theorem dropWhile_eq_self_of_head (p : Char → Bool) (s : List Char)
    (h : ∀ c, s.head? = some c → p c = false) : s.dropWhile p = s := by
  cases s with
  | nil => rfl
  | cons a t =>
      rw [List.dropWhile_cons, if_neg]
      rw [h a (by rw [List.head?_cons])]
      simp

theorem pyStrip_eq_self (s : List Char) (h1 : headNotSpace s) (h2 : lastNotSpace s) :
    pyStrip s = s := by
  unfold pyStrip stripLeft stripRight
  rw [dropWhile_eq_self_of_head isPySpace s h1]
  rw [dropWhile_eq_self_of_head isPySpace s.reverse
    (fun c hc => h2 c (by rwa [List.head?_reverse] at hc))]
  exact List.reverse_reverse s

theorem headNotSpace_collapseFuel (fuel : Nat) (s : List Char)
    (h : headNotSpace s) : headNotSpace (collapseFuel fuel s) := by
  cases fuel with
  | zero => cases s with
      | nil => exact h
      | cons a t => exact h
  | succ n =>
      cases s with
      | nil => exact h
      | cons a t =>
          have ha : isPySpace a = false := h a (by rw [List.head?_cons])
          unfold collapseFuel
          rw [if_neg (by simp [ha])]
          intro c hc
          rw [List.head?_cons, Option.some_inj] at hc
          subst hc
          exact ha

theorem mem_collapseFuel (x : Char) :
    ∀ (fuel : Nat) (s : List Char), x ∈ collapseFuel fuel s → x = ' ' ∨ x ∈ s := by
  intro fuel
  induction fuel with
  | zero => intro s hx; cases s with
      | nil => cases hx
      | cons a t => exact Or.inr hx
  | succ n ih =>
      intro s hx
      cases s with
      | nil => cases hx
      | cons a t =>
          unfold collapseFuel at hx
          by_cases ha : isPySpace a = true
          · rw [if_pos ha] at hx
            rcases List.mem_cons.mp hx with h | h
            · exact Or.inl h
            · rcases ih _ h with h2 | h2
              · exact Or.inl h2
              · exact Or.inr (List.mem_cons_of_mem a
                  ((List.dropWhile_suffix isPySpace).subset h2))
          · rw [if_neg ha] at hx
            rcases List.mem_cons.mp hx with h | h
            · exact Or.inr (h ▸ List.mem_cons_self a t)
            · rcases ih t h with h2 | h2
              · exact Or.inl h2
              · exact Or.inr (List.mem_cons_of_mem a h2)

theorem collapseFuel_collapsed :
    ∀ (fuel : Nat) (s : List Char), s.length ≤ fuel → Collapsed (collapseFuel fuel s) := by
  intro fuel
  induction fuel with
  | zero =>
      intro s hs
      rw [Nat.le_zero, List.length_eq_zero] at hs
      subst hs
      exact ⟨fun c hc _ => absurd hc (List.not_mem_nil c), List.chain'_nil⟩
  | succ n ih =>
      intro s hs
      cases s with
      | nil => exact ⟨fun c hc _ => absurd hc (List.not_mem_nil c), List.chain'_nil⟩
      | cons a t =>
          rw [List.length_cons, Nat.succ_le_succ_iff] at hs
          unfold collapseFuel
          by_cases ha : isPySpace a = true
          · rw [if_pos ha]
            have hlen : (t.dropWhile isPySpace).length ≤ n :=
              Nat.le_trans ((List.dropWhile_suffix isPySpace).sublist.length_le) hs
            have hu := ih (t.dropWhile isPySpace) hlen
            have hhead : headNotSpace (collapseFuel n (t.dropWhile isPySpace)) :=
              headNotSpace_collapseFuel n _ (fun c hc => head_dropWhile_not isPySpace t c hc)
            constructor
            · intro c hc hsp
              rcases List.mem_cons.mp hc with h | h
              · exact h
              · exact hu.1 c h hsp
            · rw [List.chain'_cons']
              refine ⟨?_, hu.2⟩
              intro b hb hcontra
              have hb2 := hhead b hb
              rw [hb2] at hcontra
              exact absurd hcontra.2 (by simp)
          · rw [Bool.not_eq_true] at ha
            rw [if_neg (by simp [ha])]
            have hu := ih t hs
            constructor
            · intro c hc hsp
              rcases List.mem_cons.mp hc with h | h
              · rw [h] at hsp
                exact absurd hsp (by simp [ha])
              · exact hu.1 c h hsp
            · rw [List.chain'_cons']
              refine ⟨?_, hu.2⟩
              intro b _ hcontra
              rw [ha] at hcontra
              exact absurd hcontra.1 (by simp)

theorem collapseFuel_eq_self :
    ∀ (fuel : Nat) (s : List Char), Collapsed s → collapseFuel fuel s = s := by
  intro fuel
  induction fuel with
  | zero => intro s _; cases s <;> rfl
  | succ n ih =>
      intro s hcol
      cases s with
      | nil => rfl
      | cons a t =>
          unfold collapseFuel
          by_cases ha : isPySpace a = true
          · rw [if_pos ha]
            have haSp : a = ' ' := hcol.1 a (List.mem_cons_self a t) ha
            cases t with
            | nil =>
                have hn : collapseFuel n ([] : List Char) = [] := by cases n <;> rfl
                rw [List.dropWhile_nil, hn, haSp]
            | cons b t2 =>
                have hcadj := (List.chain'_cons.mp hcol.2).1
                have hb : isPySpace b = false := by
                  by_contra hb2
                  rw [Bool.not_eq_false] at hb2
                  exact hcadj ⟨ha, hb2⟩
                rw [List.dropWhile_cons, if_neg (by simp [hb])]
                rw [ih (b :: t2) ⟨fun c hc hsp => hcol.1 c (List.mem_cons_of_mem a hc) hsp,
                  (List.chain'_cons.mp hcol.2).2⟩]
                rw [haSp]
          · rw [if_neg ha]
            rw [ih t ⟨fun c hc hsp => hcol.1 c (List.mem_cons_of_mem a hc) hsp,
              (List.chain'_cons'.mp hcol.2).2⟩]

theorem collapseFuel_ne_nil (fuel : Nat) (s : List Char) (hs : s ≠ []) :
    collapseFuel fuel s ≠ [] := by
  cases fuel with
  | zero => cases s with
      | nil => exact absurd rfl hs
      | cons a t => exact hs
  | succ n =>
      cases s with
      | nil => exact absurd rfl hs
      | cons a t =>
          unfold collapseFuel
          split <;> simp

theorem lastNotSpace_collapseFuel :
    ∀ (fuel : Nat) (s : List Char), lastNotSpace s → lastNotSpace (collapseFuel fuel s) := by
  intro fuel
  induction fuel with
  | zero => intro s h; cases s with
      | nil => exact h
      | cons a t => exact h
  | succ n ih =>
      intro s h
      cases s with
      | nil => exact h
      | cons a t =>
          unfold collapseFuel
          by_cases ha : isPySpace a = true
          · rw [if_pos ha]
            cases t with
            | nil =>
                exfalso
                have h2 := h a (by rw [List.getLast?_singleton])
                rw [h2] at ha
                exact absurd ha (by simp)
            | cons b t2 =>
                have hlast : lastNotSpace (b :: t2) := by
                  intro c hc
                  exact h c (by rwa [List.getLast?_cons_cons])
                have hu : (b :: t2).dropWhile isPySpace ≠ [] := by
                  intro hnil
                  rw [List.dropWhile_eq_nil_iff] at hnil
                  have hne : (b :: t2) ≠ ([] : List Char) := by simp
                  have hlc := List.getLast?_eq_getLast_of_ne_nil hne
                  have hsp := hnil _ (List.getLast_mem hne)
                  have hns := hlast _ hlc
                  rw [hsp] at hns
                  exact absurd hns (by simp)
                have hlast2 : lastNotSpace ((b :: t2).dropWhile isPySpace) := by
                  intro c hc
                  apply hlast c
                  rw [← List.takeWhile_append_dropWhile (p := isPySpace) (l := b :: t2)]
                  rwa [List.getLast?_append_of_ne_nil _ hu]
                have hrec := ih _ hlast2
                have hne2 := collapseFuel_ne_nil n _ hu
                intro c hc
                apply hrec c
                cases hcol : collapseFuel n ((b :: t2).dropWhile isPySpace) with
                | nil => exact absurd hcol hne2
                | cons w ws =>
                    rw [hcol] at hc
                    rwa [List.getLast?_cons_cons] at hc
          · rw [if_neg ha]
            rw [Bool.not_eq_true] at ha
            cases t with
            | nil =>
                intro c hc
                have hn : collapseFuel n ([] : List Char) = [] := by cases n <;> rfl
                rw [hn] at hc
                rw [List.getLast?_singleton, Option.some_inj] at hc
                subst hc
                exact ha
            | cons b t2 =>
                have hlast : lastNotSpace (b :: t2) := by
                  intro c hc
                  exact h c (by rwa [List.getLast?_cons_cons])
                have hrec := ih _ hlast
                have hne2 := collapseFuel_ne_nil n (b :: t2) (by simp)
                intro c hc
                apply hrec c
                cases hcol : collapseFuel n (b :: t2) with
                | nil => exact absurd hcol hne2
                | cons w ws =>
                    rw [hcol] at hc
                    rwa [List.getLast?_cons_cons] at hc

theorem collapsed_map (f : Char → Char) (hsp : ∀ a, isPySpace (f a) = isPySpace a)
    (hspc : f ' ' = ' ') (s : List Char) (h : Collapsed s) : Collapsed (s.map f) := by
  constructor
  · intro c hc hc2
    rw [List.mem_map] at hc
    obtain ⟨a, ha, rfl⟩ := hc
    rw [hsp a] at hc2
    rw [h.1 a ha hc2]
    exact hspc
  · rw [List.chain'_map]
    refine List.Chain'.imp ?_ h.2
    intro a b hr hc
    exact hr ⟨by rw [← hsp a]; exact hc.1, by rw [← hsp b]; exact hc.2⟩

theorem headNotSpace_map (f : Char → Char) (hsp : ∀ a, isPySpace (f a) = isPySpace a)
    (s : List Char) (h : headNotSpace s) : headNotSpace (s.map f) := by
  intro c hc
  rw [List.head?_map, Option.map_eq_some'] at hc
  obtain ⟨a, ha, rfl⟩ := hc
  rw [hsp a]
  exact h a ha

theorem lastNotSpace_map (f : Char → Char) (hsp : ∀ a, isPySpace (f a) = isPySpace a)
    (s : List Char) (h : lastNotSpace s) : lastNotSpace (s.map f) := by
  intro c hc
  rw [← List.head?_reverse, ← List.map_reverse, List.head?_map,
    Option.map_eq_some'] at hc
  obtain ⟨a, ha, rfl⟩ := hc
  rw [List.head?_reverse] at ha
  rw [hsp a]
  exact h a ha

theorem map_subst_not_mem (c d x : Char) (v : List Char) (hxv : x ∉ v) (hxd : x ≠ d) :
    x ∉ v.map (fun a => if a = c then d else a) := by
  intro hmem
  rw [List.mem_map] at hmem
  obtain ⟨a, ha, hfa⟩ := hmem
  by_cases hac : a = c
  · rw [if_pos hac] at hfa
    exact hxd hfa.symm
  · rw [if_neg hac] at hfa
    exact hxv (hfa ▸ ha)

theorem map_subst_kills (c d : Char) (v : List Char) (hcd : c ≠ d) :
    c ∉ v.map (fun a => if a = c then d else a) := by
  intro hmem
  rw [List.mem_map] at hmem
  obtain ⟨a, ha, hfa⟩ := hmem
  by_cases hac : a = c
  · rw [if_pos hac] at hfa
    exact hcd hfa.symm
  · rw [if_neg hac] at hfa
    exact hac hfa

theorem entityFold_id (t : List Char) (hAmp : '&' ∉ t) :
    ∀ (ents : List (List Char × List Char)), (∀ pr ∈ ents, '&' ∈ pr.1) →
    ents.foldl (fun u pr => pyReplace u pr.1 pr.2) t = t := by
  intro ents
  induction ents with
  | nil => intro _; rfl
  | cons e rest ih =>
      intro hents
      rw [List.foldl_cons,
        pyReplace_id_of_not_mem t e.1 e.2 '&' (hents e (List.mem_cons_self e rest)) hAmp]
      exact ih (fun pr hpr => hents pr (List.mem_cons_of_mem _ hpr))

theorem htmlEntities_amp : ∀ pr ∈ htmlEntities, '&' ∈ pr.1 := by decide

theorem normalizeList_invariants (s : List Char) (hAmp : '&' ∉ s) (hQ : '"' ∉ s) :
    '&' ∉ normalizeList s ∧ '"' ∉ normalizeList s ∧ Collapsed (normalizeList s) ∧
    headNotSpace (normalizeList s) ∧ lastNotSpace (normalizeList s) ∧
    '–' ∉ normalizeList s ∧ '—' ∉ normalizeList s := by
  have h0Amp : '&' ∉ pyStrip s := fun hx => hAmp (pyStrip_subset s hx)
  have h0Q : '"' ∉ pyStrip s := fun hx => hQ (pyStrip_subset s hx)
  unfold normalizeList
  dsimp only
  rw [entityFold_id (pyStrip s) h0Amp htmlEntities htmlEntities_amp]
  set u := collapseWs (pyStrip s) with hu
  have huAmp : '&' ∉ u := by
    intro hx
    rcases mem_collapseFuel '&' _ _ hx with h | h
    · exact absurd h (by decide)
    · exact h0Amp h
  have huQ : '"' ∉ u := by
    intro hx
    rcases mem_collapseFuel '"' _ _ hx with h | h
    · exact absurd h (by decide)
    · exact h0Q h
  have hucol : Collapsed u := collapseFuel_collapsed _ _ (Nat.le_refl _)
  have huh : headNotSpace u := headNotSpace_collapseFuel _ _ (headNotSpace_pyStrip s)
  have hul : lastNotSpace u := lastNotSpace_collapseFuel _ _ (lastNotSpace_pyStrip s)
  rw [pyReplace_id_of_not_mem u ['"'] ['"'] '"' (List.mem_singleton_self _) huQ]
  rw [pyReplace_id_of_not_mem u ['"'] ['"'] '"' (List.mem_singleton_self _) huQ]
  rw [pyReplace_id_of_not_mem u line93Pat [apos] '"' (by decide) huQ]
  rw [pyReplace_single_map, pyReplace_single_map]
  have gsp : ∀ a, isPySpace (if a = '–' then '-' else a) = isPySpace a := by
    intro a
    by_cases h : a = '–'
    · rw [if_pos h, h]
      decide
    · rw [if_neg h]
  have fsp : ∀ a, isPySpace (if a = '—' then '-' else a) = isPySpace a := by
    intro a
    by_cases h : a = '—'
    · rw [if_pos h, h]
      decide
    · rw [if_neg h]
  refine ⟨?_, ?_, ?_, ?_, ?_, ?_, ?_⟩
  · exact map_subst_not_mem _ _ _ _ (map_subst_not_mem _ _ _ _ huAmp (by decide)) (by decide)
  · exact map_subst_not_mem _ _ _ _ (map_subst_not_mem _ _ _ _ huQ (by decide)) (by decide)
  · exact collapsed_map _ fsp (by decide) _ (collapsed_map _ gsp (by decide) _ hucol)
  · exact headNotSpace_map _ fsp _ (headNotSpace_map _ gsp _ huh)
  · exact lastNotSpace_map _ fsp _ (lastNotSpace_map _ gsp _ hul)
  · exact map_subst_not_mem _ _ _ _ (map_subst_kills '–' '-' u (by decide)) (by decide)
  · exact map_subst_kills '—' '-' _ (by decide)

theorem normalizeList_eq_self (y : List Char) (hAmp : '&' ∉ y) (hQ : '"' ∉ y)
    (hcol : Collapsed y) (hh : headNotSpace y) (hl : lastNotSpace y)
    (hen : '–' ∉ y) (hem : '—' ∉ y) : normalizeList y = y := by
  unfold normalizeList
  dsimp only
  rw [pyStrip_eq_self y hh hl]
  rw [entityFold_id y hAmp htmlEntities htmlEntities_amp]
  rw [show collapseWs y = y from collapseFuel_eq_self _ y hcol]
  rw [pyReplace_id_of_not_mem y ['"'] ['"'] '"' (List.mem_singleton_self _) hQ]
  rw [pyReplace_id_of_not_mem y ['"'] ['"'] '"' (List.mem_singleton_self _) hQ]
  rw [pyReplace_id_of_not_mem y line93Pat [apos] '"' (by decide) hQ]
  rw [pyReplace_id_of_not_mem y ['–'] ['-'] '–' (List.mem_singleton_self _) hen]
  rw [pyReplace_id_of_not_mem y ['—'] ['-'] '—' (List.mem_singleton_self _) hem]

/-- C6 counterexample: `normalize_text` is not idempotent.
`normalize_text "&amp;amp;" = "&amp;"`, and a second pass decodes the
re-formed entity to `"&"`. -/
theorem c6_counterexample :
    normalize_text (normalize_text "&amp;amp;") ≠ normalize_text "&amp;amp;" := by
  decide

/-- C6 amended: `normalize_text` is idempotent on every input that
contains neither `&` (which rules out HTML-entity re-decoding and
entity-introduced leading/trailing whitespace) nor `"` (which rules out
re-matching the accidental pattern of the misquoted `replace` call on
line 93). -/
theorem c6_idempotent_without_amp_quote (s : String)
    (h1 : '&' ∉ s.data) (h2 : '"' ∉ s.data) :
    normalize_text (normalize_text s) = normalize_text s := by
  unfold normalize_text
  by_cases hnil : s.data = []
  · rw [if_pos hnil, if_pos rfl]
  · rw [if_neg hnil]
    obtain ⟨hA, hQ2, hc, hh, hl, he1, he2⟩ := normalizeList_invariants s.data h1 h2
    generalize hgen : normalizeList s.data = y at hA hQ2 hc hh hl he1 he2 ⊢
    by_cases hy : y = []
    · subst hy
      rw [if_pos rfl]
    · rw [if_neg hy]
      rw [normalizeList_eq_self y hA hQ2 hc hh hl he1 he2]

/-- C6 witness: an ampersand-free, quote-free input with whitespace
runs and a dash; the amended idempotence theorem applies to it. -/
theorem c6_idempotent_without_amp_quote_witness :
    normalize_text (normalize_text "Hello   world – ok") =
      normalize_text "Hello   world – ok" :=
  c6_idempotent_without_amp_quote "Hello   world – ok" (by decide) (by decide)

end UICompare
